import Mathlib

/-!
# Verification of the `binning` package (UCSC interval binning scheme)

Shallow embedding of `binning.go`. Go `int` values are modelled as `Int`
(the package works far below the 64-bit overflow boundary for every valid
scheme input, so unbounded integers are faithful). Go's arithmetic right
shift `x >> s` on a signed int is flooring division by `2^s`, modelled by
`Int.fdiv`; `x << s` is multiplication by `2^s`. Fallible Go functions
returning `(T, error)` are modelled as `Except BinError T`; the two
`panic` branches in the source are modelled as a distinct `BinError.panicked`
value so that reachability of panics can be stated.
-/

deriving instance DecidableEq for Except

/-- Go `x >> s` on a signed int: arithmetic (flooring) shift. -/
def goShr (x : Int) (s : Nat) : Int := Int.fdiv x (2 ^ s)

/-- Go `x << s` on a signed int (no overflow in the modelled domain). -/
def goShl (x : Int) (s : Nat) : Int := x * 2 ^ s

/-- The `Binning` struct of `binning.go`. -/
structure Binning where
  MaxPosition : Int
  MaxBin : Int
  binOffsets : List Int
  shiftFirst : Nat
  shiftNext : Nat
deriving DecidableEq

/-- The two error kinds produced by the package (`errors.New(fmt.Sprintf(...))`
carrying the offending values), plus the `panic("unexpected loop fall-through")`
branches of `Assign` and `Covered`, modelled as a separate constructor. -/
inductive BinError where
  | rangeError (start stop maxPosition : Int)
  | invalidBin (bin maxBin : Int)
  | panicked
deriving DecidableEq

/-- The successive `(startBin, stopBin)` pairs produced by calling the closure
returned by `ranges` until it reports exhaustion: one pair per entry of
`binOffsets`, the bin indices being right-shifted by `shiftNext` between
successive levels. -/
def levelPairs (shiftNext : Nat) : List Int → Int → Int → List (Int × Int)
  | [], _, _ => []
  | o :: os, sb, tb => (o + sb, o + tb) :: levelPairs shiftNext os (goShr sb shiftNext) (goShr tb shiftNext)

/-- Embedding of `Binning.ranges` (binning.go lines 39-63): validity check, normalization of
`stop <= start` to the one-position interval, then the per-level pair stream
(materialized as the list of pairs the Go closure yields). -/
def Binning.ranges (b : Binning) (start stop : Int) : Except BinError (List (Int × Int)) :=
  if start < 0 ∨ b.MaxPosition + 1 < stop then
    .error (.rangeError start stop b.MaxPosition)
  else
    .ok (levelPairs b.shiftNext b.binOffsets
          (goShr start b.shiftFirst)
          (goShr ((if stop ≤ start then start + 1 else stop) - 1) b.shiftFirst))

/-- The loop body of `Assign`: first pair with equal components, else `none`
(the Go code then panics). -/
def assignFromPairs : List (Int × Int) → Option Int
  | [] => none
  | (sb, tb) :: rest => if sb = tb then some sb else assignFromPairs rest

/-- Embedding of `Binning.Assign` (binning.go lines 66-83). -/
def Binning.Assign (b : Binning) (start stop : Int) : Except BinError Int :=
  match b.ranges start stop with
  | .error e => .error e
  | .ok pairs =>
    match assignFromPairs pairs with
    | some bin => .ok bin
    | none => .error .panicked

/-- A list of `n` consecutive ints counting up from `x`. -/
def intRangeGo : Nat → Int → List Int
  | 0, _ => []
  | n + 1, x => x :: intRangeGo n (x + 1)

/-- The slice of consecutive ints `startBin..stopBin` (inclusive) built by the
inner loop of `Overlapping` (`tmp` of length `stopBin-startBin+1`). -/
def intRange (a c : Int) : List Int := intRangeGo (c + 1 - a).toNat a

/-- The accumulation loop of `Overlapping`: concatenation of the per-level
consecutive ranges. -/
def overlapFromPairs : List (Int × Int) → List Int
  | [] => []
  | p :: rest => intRange p.1 p.2 ++ overlapFromPairs rest

/-- Embedding of `Binning.Overlapping` (binning.go lines 87-108). -/
def Binning.Overlapping (b : Binning) (start stop : Int) : Except BinError (List Int) :=
  match b.ranges start stop with
  | .error e => .error e
  | .ok pairs => .ok (overlapFromPairs pairs)

/-- Embedding of `Binning.Containing` (binning.go lines 112-131): filter `Overlapping`
to bins `<= Assign(start, stop)`, keeping order. -/
def Binning.Containing (b : Binning) (start stop : Int) : Except BinError (List Int) :=
  match b.Assign start stop with
  | .error e => .error e
  | .ok maxB =>
    match b.Overlapping start stop with
    | .error e => .error e
    | .ok overlapping => .ok (overlapping.filter fun bin => decide (bin ≤ maxB))

/-- Embedding of `Binning.Contained` (binning.go lines 135-154): filter `Overlapping`
to bins `>= Assign(start, stop)`, keeping order. -/
def Binning.Contained (b : Binning) (start stop : Int) : Except BinError (List Int) :=
  match b.Assign start stop with
  | .error e => .error e
  | .ok minB =>
    match b.Overlapping start stop with
    | .error e => .error e
    | .ok overlapping => .ok (overlapping.filter fun bin => decide (minB ≤ bin))

/-- The offset scan of `Covered`, accumulating the shift; an exhausted scan is
the Go `panic` branch. -/
def coveredLoop (shiftNext : Nat) (bin : Int) : List Int → Nat → Except BinError (Int × Int)
  | [], _ => .error .panicked
  | o :: os, shift =>
    if o ≤ bin then .ok (goShl (bin - o) shift, goShl (bin + 1 - o) shift)
    else coveredLoop shiftNext bin os (shift + shiftNext)

/-- Embedding of `Binning.Covered` (binning.go lines 157-171). -/
def Binning.Covered (b : Binning) (bin : Int) : Except BinError (Int × Int) :=
  if bin < 0 ∨ b.MaxBin < bin then .error (.invalidBin bin b.MaxBin)
  else coveredLoop b.shiftNext bin b.binOffsets b.shiftFirst

/-- Embedding of `NewBinning` (binning.go lines 177-185); `binOffsets[0]` is modelled by
`List.headI`; the Go code would panic on an empty offset list, which never
occurs for the schemes considered here. -/
def NewBinning (maxPosition : Int) (binOffsets : List Int) (shiftFirst shiftNext : Nat) : Binning :=
  { MaxPosition := maxPosition
    MaxBin := binOffsets.headI + goShr maxPosition shiftFirst
    binOffsets := binOffsets
    shiftFirst := shiftFirst
    shiftNext := shiftNext }

/-- Embedding of `StandardBinning` (binning.go lines 190-192). -/
def StandardBinning : Binning :=
  NewBinning (2 ^ 29 - 1) [512 + 64 + 8 + 1, 64 + 8 + 1, 8 + 1, 1, 0] 17 3

/-- Did the call fail with the range error of `ranges`? -/
def isRangeErr {α : Type} : Except BinError α → Bool
  | .error (.rangeError _ _ _) => true
  | _ => false

/-- Did the call fail with the invalid-bin error of `Covered`? -/
def isInvalidBinErr {α : Type} : Except BinError α → Bool
  | .error (.invalidBin _ _) => true
  | _ => false

/-- Did the call hit a `panic` branch? -/
def isPanicked {α : Type} : Except BinError α → Bool
  | .error .panicked => true
  | _ => false

/-- Did the call return a value? -/
def isOk {α : Type} : Except BinError α → Bool
  | .ok _ => true
  | _ => false

-- sanity examples (from the package's own test table)
example : StandardBinning.MaxBin = 4680 := by decide
example : StandardBinning.Assign 0 1 = .ok 585 := by decide
example : StandardBinning.Assign 423427 423428 = .ok 588 := by decide
example : StandardBinning.Assign 300000000 301000015 = .ok 44 := by decide
example : StandardBinning.Overlapping 0 1 = .ok [585, 73, 9, 1, 0] := by decide
example : StandardBinning.Containing 1200000 2000000 = .ok [74, 9, 1, 0] := by decide
example : StandardBinning.Contained 0 (2 ^ 17 + 1) = .ok [585, 586, 73] := by decide
example : StandardBinning.Covered 585 = .ok (0, 131072) := by decide
example : isRangeErr (StandardBinning.Assign (-1) 0) = true := by decide
example : StandardBinning.Assign (2 ^ 29) 0 = .ok 4681 := by decide

/-! ## Bridging lemmas: the standard scheme's arithmetic over `Nat` -/

lemma goShr_natCast (n s : Nat) : goShr (n : Int) s = ((n / 2 ^ s : Nat) : Int) := by
  rw [goShr, show ((2 : Int) ^ s) = ((2 ^ s : Nat) : Int) by push_cast; ring, ← Int.ofNat_fdiv]

/-- The five `(startBin, stopBin)` level pairs of the standard scheme for a
query whose (normalized) first position is `a` and last position is `t`. -/
def stdPairs (a t : Nat) : List (Int × Int) :=
  [(585 + ((a / 2 ^ 17 : Nat) : Int), 585 + ((t / 2 ^ 17 : Nat) : Int)),
   (73 + ((a / 2 ^ 17 / 2 ^ 3 : Nat) : Int), 73 + ((t / 2 ^ 17 / 2 ^ 3 : Nat) : Int)),
   (9 + ((a / 2 ^ 17 / 2 ^ 3 / 2 ^ 3 : Nat) : Int), 9 + ((t / 2 ^ 17 / 2 ^ 3 / 2 ^ 3 : Nat) : Int)),
   (1 + ((a / 2 ^ 17 / 2 ^ 3 / 2 ^ 3 / 2 ^ 3 : Nat) : Int), 1 + ((t / 2 ^ 17 / 2 ^ 3 / 2 ^ 3 / 2 ^ 3 : Nat) : Int)),
   (((a / 2 ^ 17 / 2 ^ 3 / 2 ^ 3 / 2 ^ 3 / 2 ^ 3 : Nat) : Int), ((t / 2 ^ 17 / 2 ^ 3 / 2 ^ 3 / 2 ^ 3 / 2 ^ 3 : Nat) : Int))]

lemma levelPairs_std (a t : Nat) :
    levelPairs 3 [585, 73, 9, 1, 0] (goShr (a : Int) 17) (goShr (t : Int) 17) = stdPairs a t := by
  simp only [levelPairs, stdPairs, goShr_natCast, zero_add]

lemma ranges_std (start stop : Int) (h0 : 0 ≤ start) (h1 : stop ≤ 2 ^ 29) :
    ∃ a t : Nat, start = (a : Int) ∧ (if stop ≤ start then start + 1 else stop) - 1 = (t : Int) ∧
      a ≤ t ∧ (stop ≤ start → t = a) ∧ (¬stop ≤ start → a ≤ 2 ^ 29 - 1 ∧ t ≤ 2 ^ 29 - 1) ∧
      StandardBinning.ranges start stop = .ok (stdPairs a t) := by
  obtain ⟨a, rfl⟩ := Int.eq_ofNat_of_zero_le h0
  have h2 : (0 : Int) ≤ (if stop ≤ (a : Int) then (a : Int) + 1 else stop) - 1 := by
    split_ifs with hc <;> omega
  obtain ⟨t, ht⟩ := Int.eq_ofNat_of_zero_le h2
  have hrange : StandardBinning.ranges (a : Int) stop = .ok (stdPairs a t) := by
    rw [Binning.ranges, if_neg]
    · show Except.ok (levelPairs 3 [585, 73, 9, 1, 0] (goShr (a : Int) 17)
        (goShr ((if stop ≤ (a : Int) then (a : Int) + 1 else stop) - 1) 17)) = _
      rw [ht, levelPairs_std]
    · have : StandardBinning.MaxPosition = 2 ^ 29 - 1 := rfl
      omega
  by_cases hc : stop ≤ (a : Int)
  · rw [if_pos hc] at ht
    exact ⟨a, t, rfl, by rw [if_pos hc]; omega, by omega, fun _ => by omega, fun h => absurd hc h, hrange⟩
  · rw [if_neg hc] at ht
    exact ⟨a, t, rfl, by rw [if_neg hc]; omega, by omega, fun h => absurd h hc,
      fun _ => by omega, hrange⟩

lemma mem_intRangeGo {x : Int} (n : Nat) (s : Int) :
    x ∈ intRangeGo n s ↔ s ≤ x ∧ x < s + n := by
  induction n generalizing s with
  | zero => simp [intRangeGo]
  | succ n ih =>
    simp only [intRangeGo, List.mem_cons, ih]
    push_cast
    omega

lemma mem_intRange {x a c : Int} : x ∈ intRange a c ↔ a ≤ x ∧ x ≤ c := by
  rw [intRange, mem_intRangeGo]
  omega

lemma assignFromPairs_std (a t : Nat) :
    assignFromPairs (stdPairs a t) =
      if a / 2 ^ 17 = t / 2 ^ 17 then some (585 + ((a / 2 ^ 17 : Nat) : Int))
      else if a / 2 ^ 17 / 2 ^ 3 = t / 2 ^ 17 / 2 ^ 3 then
        some (73 + ((a / 2 ^ 17 / 2 ^ 3 : Nat) : Int))
      else if a / 2 ^ 17 / 2 ^ 3 / 2 ^ 3 = t / 2 ^ 17 / 2 ^ 3 / 2 ^ 3 then
        some (9 + ((a / 2 ^ 17 / 2 ^ 3 / 2 ^ 3 : Nat) : Int))
      else if a / 2 ^ 17 / 2 ^ 3 / 2 ^ 3 / 2 ^ 3 = t / 2 ^ 17 / 2 ^ 3 / 2 ^ 3 / 2 ^ 3 then
        some (1 + ((a / 2 ^ 17 / 2 ^ 3 / 2 ^ 3 / 2 ^ 3 : Nat) : Int))
      else if a / 2 ^ 17 / 2 ^ 3 / 2 ^ 3 / 2 ^ 3 / 2 ^ 3 = t / 2 ^ 17 / 2 ^ 3 / 2 ^ 3 / 2 ^ 3 / 2 ^ 3 then
        some ((a / 2 ^ 17 / 2 ^ 3 / 2 ^ 3 / 2 ^ 3 / 2 ^ 3 : Nat) : Int)
      else none := by
  simp only [assignFromPairs, stdPairs, add_right_inj, Nat.cast_inj]

lemma assign_std_some (a t : Nat) (h : a = t ∨ (a ≤ 2 ^ 29 - 1 ∧ t ≤ 2 ^ 29 - 1)) :
    ∃ v : Int, assignFromPairs (stdPairs a t) = some v := by
  rw [assignFromPairs_std]
  split_ifs with h1 h2 h3 h4 h5
  · exact ⟨_, rfl⟩
  · exact ⟨_, rfl⟩
  · exact ⟨_, rfl⟩
  · exact ⟨_, rfl⟩
  · exact ⟨_, rfl⟩
  · exfalso
    omega

lemma assignFromPairs_mem : ∀ {l : List (Int × Int)} {v : Int},
    assignFromPairs l = some v → v ∈ overlapFromPairs l := by
  intro l
  induction l with
  | nil => intro v h; simp [assignFromPairs] at h
  | cons p rest ih =>
    intro v h
    obtain ⟨sb, tb⟩ := p
    rw [assignFromPairs] at h
    rw [overlapFromPairs]
    by_cases hc : sb = tb
    · rw [if_pos hc] at h
      obtain rfl : sb = v := Option.some.inj h
      exact List.mem_append_left _ (mem_intRange.mpr (by omega))
    · rw [if_neg hc] at h
      exact List.mem_append_right _ (ih h)

lemma mem_overlap_std (a t : Nat) (x : Int) :
    x ∈ overlapFromPairs (stdPairs a t) ↔
      (585 + ((a / 2 ^ 17 : Nat) : Int) ≤ x ∧ x ≤ 585 + ((t / 2 ^ 17 : Nat) : Int)) ∨
      (73 + ((a / 2 ^ 17 / 2 ^ 3 : Nat) : Int) ≤ x ∧
        x ≤ 73 + ((t / 2 ^ 17 / 2 ^ 3 : Nat) : Int)) ∨
      (9 + ((a / 2 ^ 17 / 2 ^ 3 / 2 ^ 3 : Nat) : Int) ≤ x ∧
        x ≤ 9 + ((t / 2 ^ 17 / 2 ^ 3 / 2 ^ 3 : Nat) : Int)) ∨
      (1 + ((a / 2 ^ 17 / 2 ^ 3 / 2 ^ 3 / 2 ^ 3 : Nat) : Int) ≤ x ∧
        x ≤ 1 + ((t / 2 ^ 17 / 2 ^ 3 / 2 ^ 3 / 2 ^ 3 : Nat) : Int)) ∨
      (((a / 2 ^ 17 / 2 ^ 3 / 2 ^ 3 / 2 ^ 3 / 2 ^ 3 : Nat) : Int) ≤ x ∧
        x ≤ ((t / 2 ^ 17 / 2 ^ 3 / 2 ^ 3 / 2 ^ 3 / 2 ^ 3 : Nat) : Int)) := by
  simp only [overlapFromPairs, stdPairs, List.mem_append, mem_intRange, List.not_mem_nil,
    or_false]

lemma covered_std (bin : Int) (h0 : 0 ≤ bin) (h1 : bin ≤ 4680) :
    StandardBinning.Covered bin =
      if 585 ≤ bin then .ok ((bin - 585) * 2 ^ 17, (bin - 584) * 2 ^ 17)
      else if 73 ≤ bin then .ok ((bin - 73) * 2 ^ 20, (bin - 72) * 2 ^ 20)
      else if 9 ≤ bin then .ok ((bin - 9) * 2 ^ 23, (bin - 8) * 2 ^ 23)
      else if 1 ≤ bin then .ok ((bin - 1) * 2 ^ 26, bin * 2 ^ 26)
      else .ok (0, 2 ^ 29) := by
  have hmb : StandardBinning.MaxBin = 4680 := by decide
  have hsn : StandardBinning.shiftNext = 3 := rfl
  have hsf : StandardBinning.shiftFirst = 17 := rfl
  have hbo : StandardBinning.binOffsets = [585, 73, 9, 1, 0] := by decide
  unfold Binning.Covered
  rw [hmb, hsn, hsf, hbo, if_neg (by omega)]
  simp only [coveredLoop]
  split_ifs with c1 c2 c3 c4
  · simp only [goShl, Except.ok.injEq, Prod.mk.injEq]
    norm_num
    try omega
  · simp only [goShl, Except.ok.injEq, Prod.mk.injEq]
    norm_num
    try omega
  · simp only [goShl, Except.ok.injEq, Prod.mk.injEq]
    norm_num
    try omega
  · simp only [goShl, Except.ok.injEq, Prod.mk.injEq]
    norm_num
    try omega
  · obtain rfl : bin = 0 := by omega
    simp [goShl]

lemma interval_overlap_iff (x1 y1 x2 y2 : Int) (h1 : x1 < y1) (h2 : x2 < y2) :
    (∃ p : Int, x1 ≤ p ∧ p < y1 ∧ x2 ≤ p ∧ p < y2) ↔ (x1 < y2 ∧ x2 < y1) := by
  constructor
  · rintro ⟨p, hp⟩
    omega
  · intro h
    exact ⟨max x1 x2, by omega⟩

lemma ops_ok (start stop : Int) (h0 : 0 ≤ start) (h1 : stop ≤ 2 ^ 29) :
    ∃ (v : Int) (ovl : List Int),
      StandardBinning.Assign start stop = .ok v ∧
      StandardBinning.Overlapping start stop = .ok ovl ∧
      StandardBinning.Containing start stop = .ok (ovl.filter fun y => decide (y ≤ v)) ∧
      StandardBinning.Contained start stop = .ok (ovl.filter fun y => decide (v ≤ y)) ∧
      v ∈ ovl := by
  obtain ⟨a, t, ha, ht, hat, hts, htb, hr⟩ := ranges_std start stop h0 h1
  have hd : a = t ∨ (a ≤ 2 ^ 29 - 1 ∧ t ≤ 2 ^ 29 - 1) := by
    by_cases hc : stop ≤ start
    · exact Or.inl (hts hc).symm
    · exact Or.inr (htb hc)
  obtain ⟨v, hv⟩ := assign_std_some a t hd
  have hA : StandardBinning.Assign start stop = .ok v := by
    simp only [Binning.Assign, hr, hv]
  have hO : StandardBinning.Overlapping start stop = .ok (overlapFromPairs (stdPairs a t)) := by
    simp only [Binning.Overlapping, hr]
  refine ⟨v, overlapFromPairs (stdPairs a t), hA, hO, ?_, ?_, assignFromPairs_mem hv⟩
  · simp only [Binning.Containing, hA, hO]
  · simp only [Binning.Contained, hA, hO]

lemma ranges_err (start stop : Int) (h : start < 0 ∨ 2 ^ 29 < stop) :
    StandardBinning.ranges start stop = .error (.rangeError start stop (2 ^ 29 - 1)) := by
  have hmp : StandardBinning.MaxPosition = 2 ^ 29 - 1 := rfl
  rw [Binning.ranges, if_pos (by omega), hmp]

/-! ## The claims -/

/-- C9: boundary values under the standard scheme: `Assign(0, 1) = 585`,
`Assign(0, 1<<29) = 0`, `Assign(1<<29 - 1, 1<<29) = 4680`,
`Overlapping(0, 1) = [585, 73, 9, 1, 0]`, and
`Overlapping(1200000, 2000000) = [594, ..., 600, 74, 9, 1, 0]`,
all returned without error. -/
theorem boundary_values :
    StandardBinning.Assign 0 1 = .ok 585 ∧
    StandardBinning.Assign 0 (2 ^ 29) = .ok 0 ∧
    StandardBinning.Assign (2 ^ 29 - 1) (2 ^ 29) = .ok 4680 ∧
    StandardBinning.Overlapping 0 1 = .ok [585, 73, 9, 1, 0] ∧
    StandardBinning.Overlapping 1200000 2000000 =
      .ok [594, 595, 596, 597, 598, 599, 600, 74, 9, 1, 0] := by
  refine ⟨by decide, by decide, by decide, by decide, by decide⟩

/-- C10: because the range check precedes the `stop <= start` normalization,
the input `(1<<29, 0)` is accepted although its start exceeds `MaxPosition`;
`Assign(1<<29, 0)` returns `4681 > MaxBin = 4680`, and that bin is rejected
by `Covered`. -/
theorem accepted_start_beyond_max_position :
    isRangeErr (StandardBinning.Assign (2 ^ 29) 0) = false ∧
    StandardBinning.Assign (2 ^ 29) 0 = .ok 4681 ∧
    StandardBinning.MaxBin = 4680 ∧
    (4680 : Int) < 4681 ∧
    isInvalidBinErr (StandardBinning.Covered 4681) = true := by
  refine ⟨by decide, by decide, by decide, by decide, by decide⟩

/-- C6: each of
the four query operations fails with a range error iff `start < 0` or
`stop > MaxPosition + 1`; any accepted input — in particular any with
`stop <= start` — is answered with an ok value. -/
theorem range_error_iff (start stop : Int) :
    (isRangeErr (StandardBinning.Assign start stop) = true ↔
      (start < 0 ∨ StandardBinning.MaxPosition + 1 < stop)) ∧
    (isRangeErr (StandardBinning.Overlapping start stop) = true ↔
      (start < 0 ∨ StandardBinning.MaxPosition + 1 < stop)) ∧
    (isRangeErr (StandardBinning.Containing start stop) = true ↔
      (start < 0 ∨ StandardBinning.MaxPosition + 1 < stop)) ∧
    (isRangeErr (StandardBinning.Contained start stop) = true ↔
      (start < 0 ∨ StandardBinning.MaxPosition + 1 < stop)) ∧
    (¬(start < 0 ∨ StandardBinning.MaxPosition + 1 < stop) →
      isOk (StandardBinning.Assign start stop) = true ∧
      isOk (StandardBinning.Overlapping start stop) = true ∧
      isOk (StandardBinning.Containing start stop) = true ∧
      isOk (StandardBinning.Contained start stop) = true) := by
  have hmp : StandardBinning.MaxPosition = 2 ^ 29 - 1 := rfl
  by_cases hc : start < 0 ∨ StandardBinning.MaxPosition + 1 < stop
  · have hr := ranges_err start stop (by omega)
    have hA : StandardBinning.Assign start stop =
        .error (.rangeError start stop (2 ^ 29 - 1)) := by
      simp only [Binning.Assign, hr]
    have hO : StandardBinning.Overlapping start stop =
        .error (.rangeError start stop (2 ^ 29 - 1)) := by
      simp only [Binning.Overlapping, hr]
    have hCg : StandardBinning.Containing start stop =
        .error (.rangeError start stop (2 ^ 29 - 1)) := by
      simp only [Binning.Containing, hA]
    have hCd : StandardBinning.Contained start stop =
        .error (.rangeError start stop (2 ^ 29 - 1)) := by
      simp only [Binning.Contained, hA]
    rw [hA, hO, hCg, hCd]
    exact ⟨iff_of_true rfl hc, iff_of_true rfl hc, iff_of_true rfl hc, iff_of_true rfl hc,
      fun h => absurd hc h⟩
  · obtain ⟨v, ovl, hA, hO, hCg, hCd, _⟩ := ops_ok start stop (by omega) (by omega)
    rw [hA, hO, hCg, hCd]
    exact ⟨iff_of_false (by simp [isRangeErr]) hc, iff_of_false (by simp [isRangeErr]) hc,
      iff_of_false (by simp [isRangeErr]) hc, iff_of_false (by simp [isRangeErr]) hc,
      fun _ => ⟨rfl, rfl, rfl, rfl⟩⟩

/-- Witness for C6 at concrete inputs. -/
theorem range_error_iff_witness :
    isRangeErr (StandardBinning.Assign (-1) 0) = true ∧
    isOk (StandardBinning.Assign 7 7) = true := by
  refine ⟨(range_error_iff (-1) 0).1.mpr (by decide), ?_⟩
  exact ((range_error_iff 7 7).2.2.2.2 (by decide)).1

/-- C7: for every accepted input the level walk of `Assign` finds a level with
equal first and last bin, so `Assign` returns a bin number; the panic branch
is unreachable (on rejected inputs the result is the range error, not the
panic). -/
theorem assign_total_no_panic (start stop : Int) :
    (0 ≤ start → stop ≤ StandardBinning.MaxPosition + 1 →
      ∃ bin, StandardBinning.Assign start stop = .ok bin) ∧
    isPanicked (StandardBinning.Assign start stop) = false := by
  have hmp : StandardBinning.MaxPosition = 2 ^ 29 - 1 := rfl
  by_cases hc : start < 0 ∨ StandardBinning.MaxPosition + 1 < stop
  · have hr := ranges_err start stop (by omega)
    have hA : StandardBinning.Assign start stop =
        .error (.rangeError start stop (2 ^ 29 - 1)) := by
      simp only [Binning.Assign, hr]
    exact ⟨fun h0 h1 => by omega, by rw [hA]; rfl⟩
  · obtain ⟨v, ovl, hA, _, _, _, _⟩ := ops_ok start stop (by omega) (by omega)
    exact ⟨fun _ _ => ⟨v, hA⟩, by rw [hA]; rfl⟩

/-- Witness for C7 at a concrete input (a `stop <= start` input, which is
normalized, not rejected). -/
theorem assign_total_no_panic_witness :
    (0 : Int) ≤ 100 ∧ (3 : Int) ≤ StandardBinning.MaxPosition + 1 ∧
    (∃ bin, StandardBinning.Assign 100 3 = .ok bin) ∧
    isPanicked (StandardBinning.Assign 100 3) = false := by
  refine ⟨by decide, by decide, (assign_total_no_panic 100 3).1 (by decide) (by decide),
    (assign_total_no_panic 100 3).2⟩

/-- C8: the operation `Covered(bin)` fails with the invalid-bin error iff `bin < 0` or
`bin > MaxBin`, and otherwise returns an interval; in particular
`Covered(4681)` fails under the standard scheme. -/
theorem covered_invalid_bin_iff :
    (∀ bin : Int,
      (isInvalidBinErr (StandardBinning.Covered bin) = true ↔
        (bin < 0 ∨ StandardBinning.MaxBin < bin)) ∧
      (¬(bin < 0 ∨ StandardBinning.MaxBin < bin) →
        ∃ c0 c1, StandardBinning.Covered bin = .ok (c0, c1))) ∧
    isInvalidBinErr (StandardBinning.Covered 4681) = true := by
  have hmb : StandardBinning.MaxBin = 4680 := by decide
  refine ⟨fun bin => ?_, by decide⟩
  by_cases hc : bin < 0 ∨ StandardBinning.MaxBin < bin
  · have hcv : StandardBinning.Covered bin = .error (.invalidBin bin StandardBinning.MaxBin) := by
      rw [Binning.Covered, if_pos hc]
    exact ⟨iff_of_true (by rw [hcv]; rfl) hc, fun h => absurd hc h⟩
  · have hcv := covered_std bin (by omega) (by omega)
    constructor
    · refine iff_of_false ?_ hc
      rw [hcv]
      split_ifs <;> simp [isInvalidBinErr]
    · intro _
      rw [hcv]
      split_ifs
      · exact ⟨_, _, rfl⟩
      · exact ⟨_, _, rfl⟩
      · exact ⟨_, _, rfl⟩
      · exact ⟨_, _, rfl⟩
      · exact ⟨_, _, rfl⟩

/-- Witness for C8 at a concrete bin. -/
theorem covered_invalid_bin_iff_witness :
    ¬((100 : Int) < 0 ∨ StandardBinning.MaxBin < 100) ∧
    (∃ c0 c1, StandardBinning.Covered 100 = .ok (c0, c1)) := by
  exact ⟨by decide, (covered_invalid_bin_iff.1 100).2 (by decide)⟩

/-- C2 counterexample: the accepted input `(1<<29, 0)` makes
`Covered(Assign(start, stop))` fail, refuting the claim over all accepted
inputs. -/
theorem assign_covered_encloses_cex :
    (0 : Int) ≤ 2 ^ 29 ∧ (0 : Int) ≤ StandardBinning.MaxPosition + 1 ∧
    ¬(∃ b c0 c1, StandardBinning.Assign (2 ^ 29) 0 = .ok b ∧
        StandardBinning.Covered b = .ok (c0, c1) ∧ c0 ≤ (2 ^ 29 : Int) ∧ (0 : Int) ≤ c1) := by
  refine ⟨by decide, by decide, ?_⟩
  rintro ⟨b, c0, c1, hb, hcov, -, -⟩
  have hb' : StandardBinning.Assign (2 ^ 29) 0 = .ok 4681 := by decide
  rw [hb'] at hb
  obtain rfl : (4681 : Int) = b := Except.ok.inj hb
  have : StandardBinning.Covered 4681 = .error (.invalidBin 4681 4680) := by decide
  rw [this] at hcov
  exact Except.noConfusion hcov

/-- C5 counterexample: for the accepted input `(1<<29, 0)` the root-level
pair of `ranges` is `(1, 1)`, not `(0, 0)`, refuting the final-pair clause of
the claim. -/
theorem ranges_root_pair_cex :
    (0 : Int) ≤ 2 ^ 29 ∧ (0 : Int) ≤ StandardBinning.MaxPosition + 1 ∧
    StandardBinning.ranges (2 ^ 29) 0 =
      .ok [(4681, 4681), (585, 585), (73, 73), (9, 9), (1, 1)] ∧
    ((1 : Int), (1 : Int)) ≠ ((0 : Int), (0 : Int)) := by
  refine ⟨by decide, by decide, by decide, by decide⟩

/-- C5 (amended): for every accepted input, `ranges` yields exactly one pair
per level, the pair for level `i` being
`(binOffsets[i] + start >> (17 + 3i), binOffsets[i] + (stop'-1) >> (17 + 3i))`
with `stop'` the normalized stop; the final pair is `(0, 0)` for every
accepted input whose start does not exceed `MaxPosition` (the `(0, 0)` clause
fails for the accepted degenerate inputs with `start > MaxPosition`, see the
counterexample). -/
theorem ranges_level_pair_formula (start stop : Int) (h0 : 0 ≤ start)
    (h1 : stop ≤ StandardBinning.MaxPosition + 1) :
    StandardBinning.ranges start stop = .ok
      [(585 + goShr start 17, 585 + goShr ((if stop ≤ start then start + 1 else stop) - 1) 17),
       (73 + goShr start 20, 73 + goShr ((if stop ≤ start then start + 1 else stop) - 1) 20),
       (9 + goShr start 23, 9 + goShr ((if stop ≤ start then start + 1 else stop) - 1) 23),
       (1 + goShr start 26, 1 + goShr ((if stop ≤ start then start + 1 else stop) - 1) 26),
       (0 + goShr start 29, 0 + goShr ((if stop ≤ start then start + 1 else stop) - 1) 29)] ∧
    (start ≤ StandardBinning.MaxPosition →
      goShr start 29 = 0 ∧ goShr ((if stop ≤ start then start + 1 else stop) - 1) 29 = 0) := by
  have hmp : StandardBinning.MaxPosition = 2 ^ 29 - 1 := rfl
  rw [hmp] at h1 ⊢
  obtain ⟨a, t, ha, ht, hat, hts, htb, hr⟩ := ranges_std start stop h0 (by omega)
  subst ha
  rw [ht, hr]
  have ht2 : ¬((t : Int) ≤ (a : Int)) ∨ t ≤ 2 ^ 29 - 1 → True := fun _ => trivial
  constructor
  · simp only [stdPairs, goShr_natCast, Except.ok.injEq, List.cons.injEq, Prod.mk.injEq,
      add_right_inj, Nat.cast_inj, zero_add, true_and, and_true]
    omega
  · intro hle
    have haa : a ≤ 2 ^ 29 - 1 := by omega
    have htt : t ≤ 2 ^ 29 - 1 := by
      by_cases hc : stop ≤ (a : Int)
      · have := hts hc
        omega
      · exact (htb hc).2
    rw [goShr_natCast, goShr_natCast]
    constructor <;> · simp only [Nat.cast_eq_zero]; omega

/-- Witness for C5 at a concrete input: the evaluated pair list of
`ranges(1200000, 2000000)`. -/
theorem ranges_level_pair_formula_witness :
    StandardBinning.ranges 1200000 2000000 =
      .ok [(594, 600), (74, 74), (9, 9), (1, 1), (0, 0)] := by
  rw [(ranges_level_pair_formula 1200000 2000000 (by decide) (by decide)).1]
  decide

/-- C4: for every accepted input, `Containing` is exactly the subsequence of
`Overlapping` with elements `<= Assign(start, stop)`, `Contained` exactly the
subsequence with elements `>= Assign(start, stop)`, their union as sets is the
set of overlapping bins, and their intersection is exactly the assigned bin
(which always occurs in `Overlapping`). -/
theorem partition_containing_contained (start stop : Int) (h0 : 0 ≤ start)
    (h1 : stop ≤ StandardBinning.MaxPosition + 1) :
    ∃ v ovl,
      StandardBinning.Assign start stop = .ok v ∧
      StandardBinning.Overlapping start stop = .ok ovl ∧
      StandardBinning.Containing start stop = .ok (ovl.filter fun y => decide (y ≤ v)) ∧
      StandardBinning.Contained start stop = .ok (ovl.filter fun y => decide (v ≤ y)) ∧
      (∀ x : Int, (x ∈ ovl.filter (fun y => decide (y ≤ v)) ∨
        x ∈ ovl.filter (fun y => decide (v ≤ y))) ↔ x ∈ ovl) ∧
      (∀ x : Int, (x ∈ ovl.filter (fun y => decide (y ≤ v)) ∧
        x ∈ ovl.filter (fun y => decide (v ≤ y))) ↔ x = v) := by
  have hmp : StandardBinning.MaxPosition = 2 ^ 29 - 1 := rfl
  obtain ⟨v, ovl, hA, hO, hCg, hCd, hmem⟩ := ops_ok start stop h0 (by omega)
  refine ⟨v, ovl, hA, hO, hCg, hCd, fun x => ?_, fun x => ?_⟩
  · simp only [List.mem_filter, decide_eq_true_eq]
    constructor
    · rintro (⟨h, -⟩ | ⟨h, -⟩) <;> exact h
    · intro h
      rcases le_total x v with h' | h'
      · exact Or.inl ⟨h, h'⟩
      · exact Or.inr ⟨h, h'⟩
  · simp only [List.mem_filter, decide_eq_true_eq]
    constructor
    · rintro ⟨⟨-, hx1⟩, ⟨-, hx2⟩⟩
      omega
    · rintro rfl
      exact ⟨⟨hmem, le_refl x⟩, ⟨hmem, le_refl x⟩⟩

/-- Witness for C4 at `(0, 1)`. -/
theorem partition_containing_contained_witness :
    (0 : Int) ≤ 0 ∧ (1 : Int) ≤ StandardBinning.MaxPosition + 1 ∧
    (∃ v ovl,
      StandardBinning.Assign 0 1 = .ok v ∧
      StandardBinning.Overlapping 0 1 = .ok ovl ∧
      StandardBinning.Containing 0 1 = .ok (ovl.filter fun y => decide (y ≤ v)) ∧
      StandardBinning.Contained 0 1 = .ok (ovl.filter fun y => decide (v ≤ y)) ∧
      (∀ x : Int, (x ∈ ovl.filter (fun y => decide (y ≤ v)) ∨
        x ∈ ovl.filter (fun y => decide (v ≤ y))) ↔ x ∈ ovl) ∧
      (∀ x : Int, (x ∈ ovl.filter (fun y => decide (y ≤ v)) ∧
        x ∈ ovl.filter (fun y => decide (v ≤ y))) ↔ x = v)) := by
  exact ⟨by decide, by decide, partition_containing_contained 0 1 (by decide) (by decide)⟩

/-- C2 (amended): for every accepted input whose start also does not exceed
`MaxPosition`, `Covered(Assign(start, stop))` succeeds and returns an interval
`(c0, c1)` with `c0 <= start` and `stop <= c1` (for accepted degenerate inputs
with `start > MaxPosition` the assigned bin exceeds `MaxBin` and `Covered`
fails, see the counterexample). -/
theorem assign_covered_encloses (start stop : Int) (h0 : 0 ≤ start)
    (h1 : stop ≤ StandardBinning.MaxPosition + 1) (h2 : start ≤ StandardBinning.MaxPosition) :
    ∃ b c0 c1, StandardBinning.Assign start stop = .ok b ∧
      StandardBinning.Covered b = .ok (c0, c1) ∧ c0 ≤ start ∧ stop ≤ c1 := by
  have hmp : StandardBinning.MaxPosition = 2 ^ 29 - 1 := rfl
  rw [hmp] at h1 h2
  obtain ⟨a, t, ha, ht, hat, hts, htb, hr⟩ := ranges_std start stop h0 (by omega)
  subst ha
  have haa : a ≤ 2 ^ 29 - 1 := by omega
  have htt : t ≤ 2 ^ 29 - 1 := by
    by_cases hc : stop ≤ (a : Int)
    · have := hts hc
      omega
    · exact (htb hc).2
  have hstop : stop ≤ (t : Int) + 1 := by
    by_cases hc : stop ≤ (a : Int)
    · rw [if_pos hc] at ht
      omega
    · rw [if_neg hc] at ht
      omega
  by_cases e1 : a / 2 ^ 17 = t / 2 ^ 17
  · refine ⟨585 + ((a / 2 ^ 17 : Nat) : Int),
      (585 + ((a / 2 ^ 17 : Nat) : Int) - 585) * 2 ^ 17,
      (585 + ((a / 2 ^ 17 : Nat) : Int) - 584) * 2 ^ 17, ?_, ?_, by omega, by omega⟩
    · simp only [Binning.Assign, hr, assignFromPairs_std, if_pos e1]
    · rw [covered_std (585 + ((a / 2 ^ 17 : Nat) : Int)) (by omega) (by omega),
        if_pos (by omega : (585 : Int) ≤ 585 + ((a / 2 ^ 17 : Nat) : Int))]
  · by_cases e2 : a / 2 ^ 17 / 2 ^ 3 = t / 2 ^ 17 / 2 ^ 3
    · refine ⟨73 + ((a / 2 ^ 17 / 2 ^ 3 : Nat) : Int),
        (73 + ((a / 2 ^ 17 / 2 ^ 3 : Nat) : Int) - 73) * 2 ^ 20,
        (73 + ((a / 2 ^ 17 / 2 ^ 3 : Nat) : Int) - 72) * 2 ^ 20, ?_, ?_, by omega, by omega⟩
      · simp only [Binning.Assign, hr, assignFromPairs_std, if_neg e1, if_pos e2]
      · rw [covered_std (73 + ((a / 2 ^ 17 / 2 ^ 3 : Nat) : Int)) (by omega) (by omega),
          if_neg (by omega), if_pos (by omega : (73 : Int) ≤ 73 + ((a / 2 ^ 17 / 2 ^ 3 : Nat) : Int))]
    · by_cases e3 : a / 2 ^ 17 / 2 ^ 3 / 2 ^ 3 = t / 2 ^ 17 / 2 ^ 3 / 2 ^ 3
      · refine ⟨9 + ((a / 2 ^ 17 / 2 ^ 3 / 2 ^ 3 : Nat) : Int),
          (9 + ((a / 2 ^ 17 / 2 ^ 3 / 2 ^ 3 : Nat) : Int) - 9) * 2 ^ 23,
          (9 + ((a / 2 ^ 17 / 2 ^ 3 / 2 ^ 3 : Nat) : Int) - 8) * 2 ^ 23, ?_, ?_, by omega, by omega⟩
        · simp only [Binning.Assign, hr, assignFromPairs_std, if_neg e1, if_neg e2, if_pos e3]
        · rw [covered_std (9 + ((a / 2 ^ 17 / 2 ^ 3 / 2 ^ 3 : Nat) : Int)) (by omega) (by omega),
            if_neg (by omega), if_neg (by omega),
            if_pos (by omega : (9 : Int) ≤ 9 + ((a / 2 ^ 17 / 2 ^ 3 / 2 ^ 3 : Nat) : Int))]
      · by_cases e4 : a / 2 ^ 17 / 2 ^ 3 / 2 ^ 3 / 2 ^ 3 = t / 2 ^ 17 / 2 ^ 3 / 2 ^ 3 / 2 ^ 3
        · refine ⟨1 + ((a / 2 ^ 17 / 2 ^ 3 / 2 ^ 3 / 2 ^ 3 : Nat) : Int),
            (1 + ((a / 2 ^ 17 / 2 ^ 3 / 2 ^ 3 / 2 ^ 3 : Nat) : Int) - 1) * 2 ^ 26,
            (1 + ((a / 2 ^ 17 / 2 ^ 3 / 2 ^ 3 / 2 ^ 3 : Nat) : Int)) * 2 ^ 26,
            ?_, ?_, by omega, by omega⟩
          · simp only [Binning.Assign, hr, assignFromPairs_std, if_neg e1, if_neg e2, if_neg e3,
              if_pos e4]
          · rw [covered_std (1 + ((a / 2 ^ 17 / 2 ^ 3 / 2 ^ 3 / 2 ^ 3 : Nat) : Int))
              (by omega) (by omega), if_neg (by omega), if_neg (by omega), if_neg (by omega),
              if_pos (by omega : (1 : Int) ≤ 1 + ((a / 2 ^ 17 / 2 ^ 3 / 2 ^ 3 / 2 ^ 3 : Nat) : Int))]
        · have hz : a / 2 ^ 17 / 2 ^ 3 / 2 ^ 3 / 2 ^ 3 / 2 ^ 3 = 0 := by omega
          have hz2 : t / 2 ^ 17 / 2 ^ 3 / 2 ^ 3 / 2 ^ 3 / 2 ^ 3 = 0 := by omega
          refine ⟨0, 0, 2 ^ 29, ?_, by decide, by omega, by omega⟩
          simp only [Binning.Assign, hr, assignFromPairs_std, if_neg e1, if_neg e2, if_neg e3,
            if_neg e4, hz, hz2, Nat.cast_zero]
          norm_num

/-- Witness for C2 (amended) at `(1200000, 2000000)`. -/
theorem assign_covered_encloses_witness :
    (0 : Int) ≤ 1200000 ∧ (2000000 : Int) ≤ StandardBinning.MaxPosition + 1 ∧
    (1200000 : Int) ≤ StandardBinning.MaxPosition ∧
    (∃ b c0 c1, StandardBinning.Assign 1200000 2000000 = .ok b ∧
      StandardBinning.Covered b = .ok (c0, c1) ∧ c0 ≤ (1200000 : Int) ∧ (2000000 : Int) ≤ c1) := by
  exact ⟨by decide, by decide, by decide,
    assign_covered_encloses 1200000 2000000 (by decide) (by decide) (by decide)⟩

/-- C1: round-trip law — for every bin `0 <= bin <= MaxBin` of the standard
scheme, `Covered(bin)` returns an interval `(c0, c1)` without error and
`Assign(c0, c1)` returns exactly `bin`. -/
theorem roundtrip_covered_assign (bin : Int) (hb0 : 0 ≤ bin)
    (hb1 : bin ≤ StandardBinning.MaxBin) :
    ∃ c0 c1, StandardBinning.Covered bin = .ok (c0, c1) ∧
      StandardBinning.Assign c0 c1 = .ok bin := by
  have hmb : StandardBinning.MaxBin = 4680 := by decide
  rw [hmb] at hb1
  rcases le_or_lt 585 bin with hl1 | hl1
  · refine ⟨(bin - 585) * 2 ^ 17, (bin - 584) * 2 ^ 17, ?_, ?_⟩
    · rw [covered_std bin hb0 (by omega), if_pos hl1]
    · obtain ⟨a, t, ha, ht, hat, hts, htb, hr⟩ :=
        ranges_std ((bin - 585) * 2 ^ 17) ((bin - 584) * 2 ^ 17) (by omega) (by omega)
      rw [if_neg (by omega)] at ht
      have e1 : a / 2 ^ 17 = t / 2 ^ 17 := by omega
      simp only [Binning.Assign, hr, assignFromPairs_std, if_pos e1]
      rw [show (585 : Int) + ((a / 2 ^ 17 : Nat) : Int) = bin by omega]
  · rcases le_or_lt 73 bin with hl2 | hl2
    · refine ⟨(bin - 73) * 2 ^ 20, (bin - 72) * 2 ^ 20, ?_, ?_⟩
      · rw [covered_std bin hb0 (by omega), if_neg (by omega), if_pos hl2]
      · obtain ⟨a, t, ha, ht, hat, hts, htb, hr⟩ :=
          ranges_std ((bin - 73) * 2 ^ 20) ((bin - 72) * 2 ^ 20) (by omega) (by omega)
        rw [if_neg (by omega)] at ht
        have e1 : ¬a / 2 ^ 17 = t / 2 ^ 17 := by omega
        have e2 : a / 2 ^ 17 / 2 ^ 3 = t / 2 ^ 17 / 2 ^ 3 := by omega
        simp only [Binning.Assign, hr, assignFromPairs_std, if_neg e1, if_pos e2]
        rw [show (73 : Int) + ((a / 2 ^ 17 / 2 ^ 3 : Nat) : Int) = bin by omega]
    · rcases le_or_lt 9 bin with hl3 | hl3
      · refine ⟨(bin - 9) * 2 ^ 23, (bin - 8) * 2 ^ 23, ?_, ?_⟩
        · rw [covered_std bin hb0 (by omega), if_neg (by omega), if_neg (by omega), if_pos hl3]
        · obtain ⟨a, t, ha, ht, hat, hts, htb, hr⟩ :=
            ranges_std ((bin - 9) * 2 ^ 23) ((bin - 8) * 2 ^ 23) (by omega) (by omega)
          rw [if_neg (by omega)] at ht
          have e1 : ¬a / 2 ^ 17 = t / 2 ^ 17 := by omega
          have e2 : ¬a / 2 ^ 17 / 2 ^ 3 = t / 2 ^ 17 / 2 ^ 3 := by omega
          have e3 : a / 2 ^ 17 / 2 ^ 3 / 2 ^ 3 = t / 2 ^ 17 / 2 ^ 3 / 2 ^ 3 := by omega
          simp only [Binning.Assign, hr, assignFromPairs_std, if_neg e1, if_neg e2, if_pos e3]
          rw [show (9 : Int) + ((a / 2 ^ 17 / 2 ^ 3 / 2 ^ 3 : Nat) : Int) = bin by omega]
      · rcases le_or_lt 1 bin with hl4 | hl4
        · refine ⟨(bin - 1) * 2 ^ 26, bin * 2 ^ 26, ?_, ?_⟩
          · rw [covered_std bin hb0 (by omega), if_neg (by omega), if_neg (by omega),
              if_neg (by omega), if_pos hl4]
          · obtain ⟨a, t, ha, ht, hat, hts, htb, hr⟩ :=
              ranges_std ((bin - 1) * 2 ^ 26) (bin * 2 ^ 26) (by omega) (by omega)
            rw [if_neg (by omega)] at ht
            have e1 : ¬a / 2 ^ 17 = t / 2 ^ 17 := by omega
            have e2 : ¬a / 2 ^ 17 / 2 ^ 3 = t / 2 ^ 17 / 2 ^ 3 := by omega
            have e3 : ¬a / 2 ^ 17 / 2 ^ 3 / 2 ^ 3 = t / 2 ^ 17 / 2 ^ 3 / 2 ^ 3 := by omega
            have e4 : a / 2 ^ 17 / 2 ^ 3 / 2 ^ 3 / 2 ^ 3 = t / 2 ^ 17 / 2 ^ 3 / 2 ^ 3 / 2 ^ 3 := by
              omega
            simp only [Binning.Assign, hr, assignFromPairs_std, if_neg e1, if_neg e2, if_neg e3,
              if_pos e4]
            rw [show (1 : Int) + ((a / 2 ^ 17 / 2 ^ 3 / 2 ^ 3 / 2 ^ 3 : Nat) : Int) = bin by omega]
        · obtain rfl : bin = 0 := by omega
          exact ⟨0, 2 ^ 29, by decide, by decide⟩

/-- Witness for C1 at bin 1000. -/
theorem roundtrip_covered_assign_witness :
    (0 : Int) ≤ 1000 ∧ (1000 : Int) ≤ StandardBinning.MaxBin ∧
    (∃ c0 c1, StandardBinning.Covered 1000 = .ok (c0, c1) ∧
      StandardBinning.Assign c0 c1 = .ok 1000) := by
  exact ⟨by decide, by decide, roundtrip_covered_assign 1000 (by decide) (by decide)⟩

/-- C3 counterexample: for the accepted input `(1<<29, 0)` the bin 585 occurs
in `Overlapping` although its covered interval `[0, 131072)` shares no
position with the normalized query `[1<<29, 1<<29 + 1)`, refuting the claim
over all accepted inputs. -/
theorem overlapping_membership_cex :
    (0 : Int) ≤ 2 ^ 29 ∧ (0 : Int) ≤ StandardBinning.MaxPosition + 1 ∧
    (0 : Int) ≤ 585 ∧ (585 : Int) ≤ StandardBinning.MaxBin ∧
    ¬(∃ ovl c0 c1, StandardBinning.Overlapping (2 ^ 29) 0 = .ok ovl ∧
        StandardBinning.Covered 585 = .ok (c0, c1) ∧
        ((585 : Int) ∈ ovl ↔ ∃ p : Int, c0 ≤ p ∧ p < c1 ∧ (2 ^ 29 : Int) ≤ p ∧
          p < max 0 ((2 ^ 29 : Int) + 1))) := by
  refine ⟨by decide, by decide, by decide, by decide, ?_⟩
  rintro ⟨ovl, c0, c1, hovl, hcov, hiff⟩
  have h1 : StandardBinning.Overlapping (2 ^ 29) 0 = .ok [4681, 585, 73, 9, 1] := by decide
  rw [h1] at hovl
  obtain rfl := Except.ok.inj hovl
  have h2 : StandardBinning.Covered 585 = .ok (0, 131072) := by decide
  rw [h2] at hcov
  have h3 := Except.ok.inj hcov
  obtain ⟨rfl, rfl⟩ : (0 : Int) = c0 ∧ (131072 : Int) = c1 :=
    ⟨congrArg Prod.fst h3, congrArg Prod.snd h3⟩
  obtain ⟨p, hp⟩ := hiff.mp (by decide)
  omega

/-- C3 (amended): for every accepted input whose start also does not exceed
`MaxPosition` and every valid bin, the bin occurs in `Overlapping(start, stop)`
iff its covered interval shares at least one position with the normalized
query interval `[start, max(stop, start+1))` (for accepted degenerate inputs
with `start > MaxPosition` the equivalence fails, see the counterexample). -/
theorem overlapping_membership_characterization (start stop bin : Int) (h0 : 0 ≤ start)
    (h1 : stop ≤ StandardBinning.MaxPosition + 1) (h2 : start ≤ StandardBinning.MaxPosition)
    (hb0 : 0 ≤ bin) (hb1 : bin ≤ StandardBinning.MaxBin) :
    ∃ ovl c0 c1, StandardBinning.Overlapping start stop = .ok ovl ∧
      StandardBinning.Covered bin = .ok (c0, c1) ∧
      (bin ∈ ovl ↔ ∃ p : Int, c0 ≤ p ∧ p < c1 ∧ start ≤ p ∧ p < max stop (start + 1)) := by
  have hmp : StandardBinning.MaxPosition = 2 ^ 29 - 1 := rfl
  have hmb : StandardBinning.MaxBin = 4680 := by decide
  rw [hmp] at h1 h2
  rw [hmb] at hb1
  obtain ⟨a, t, ha, ht, hat, hts, htb, hr⟩ := ranges_std start stop h0 (by omega)
  subst ha
  have haa : a ≤ 2 ^ 29 - 1 := by omega
  have htt : t ≤ 2 ^ 29 - 1 := by
    by_cases hc : stop ≤ (a : Int)
    · have := hts hc
      omega
    · exact (htb hc).2
  have hO : StandardBinning.Overlapping (a : Int) stop =
      .ok (overlapFromPairs (stdPairs a t)) := by
    simp only [Binning.Overlapping, hr]
  have hmax : max stop ((a : Int) + 1) = (t : Int) + 1 := by
    by_cases hc : stop ≤ (a : Int)
    · rw [if_pos hc] at ht
      omega
    · rw [if_neg hc] at ht
      omega
  rw [hmax]
  rcases le_or_lt 585 bin with hl1 | hl1
  · refine ⟨_, (bin - 585) * 2 ^ 17, (bin - 584) * 2 ^ 17, hO,
      by rw [covered_std bin hb0 (by omega), if_pos hl1], ?_⟩
    rw [mem_overlap_std, interval_overlap_iff _ _ _ _ (by omega) (by omega)]
    omega
  · rcases le_or_lt 73 bin with hl2 | hl2
    · refine ⟨_, (bin - 73) * 2 ^ 20, (bin - 72) * 2 ^ 20, hO,
        by rw [covered_std bin hb0 (by omega), if_neg (by omega), if_pos hl2], ?_⟩
      rw [mem_overlap_std, interval_overlap_iff _ _ _ _ (by omega) (by omega)]
      omega
    · rcases le_or_lt 9 bin with hl3 | hl3
      · refine ⟨_, (bin - 9) * 2 ^ 23, (bin - 8) * 2 ^ 23, hO,
          by rw [covered_std bin hb0 (by omega), if_neg (by omega), if_neg (by omega),
            if_pos hl3], ?_⟩
        rw [mem_overlap_std, interval_overlap_iff _ _ _ _ (by omega) (by omega)]
        omega
      · rcases le_or_lt 1 bin with hl4 | hl4
        · refine ⟨_, (bin - 1) * 2 ^ 26, bin * 2 ^ 26, hO,
            by rw [covered_std bin hb0 (by omega), if_neg (by omega), if_neg (by omega),
              if_neg (by omega), if_pos hl4], ?_⟩
          rw [mem_overlap_std, interval_overlap_iff _ _ _ _ (by omega) (by omega)]
          omega
        · obtain rfl : bin = 0 := by omega
          refine ⟨_, 0, 2 ^ 29, hO, by decide, ?_⟩
          rw [mem_overlap_std, interval_overlap_iff _ _ _ _ (by omega) (by omega)]
          omega

/-- Witness for C3 (amended) at `(1200000, 2000000)` and bin 594. -/
theorem overlapping_membership_characterization_witness :
    (0 : Int) ≤ 1200000 ∧ (2000000 : Int) ≤ StandardBinning.MaxPosition + 1 ∧
    (1200000 : Int) ≤ StandardBinning.MaxPosition ∧
    (0 : Int) ≤ 594 ∧ (594 : Int) ≤ StandardBinning.MaxBin ∧
    (∃ ovl c0 c1, StandardBinning.Overlapping 1200000 2000000 = .ok ovl ∧
      StandardBinning.Covered 594 = .ok (c0, c1) ∧
      ((594 : Int) ∈ ovl ↔ ∃ p : Int, c0 ≤ p ∧ p < c1 ∧ (1200000 : Int) ≤ p ∧
        p < max 2000000 ((1200000 : Int) + 1))) := by
  exact ⟨by decide, by decide, by decide, by decide, by decide,
    overlapping_membership_characterization 1200000 2000000 594
      (by decide) (by decide) (by decide) (by decide) (by decide)⟩
